import Mathlib

/-!
Verification of the producer/worker migration pipeline of the
`road_companiesInfo` repository against its natural-language specification.

The Python scripts under `src/` are shallowly embedded as executable Lean
definitions:

* `src/scripts/import_csv2_quiet.py` — `parse_numeric` and friends
  (numeric-column normalization of the Record Transformer);
* `src/backend/scripts/migrate_companies.py` — `prepare_company_data`,
  `insert_companies_batch` (the Bulk Upsert Executor), the paginated
  `migrate_companies` loop and its resume-point file;
* `src/scripts/import_active_companies.py` — the `sql_merge` upsert
  (COALESCE-based conflict policy);
* `src/backend/scripts/backfill_hasAnyWebPresence_optimized.py` —
  `has_value`, `calculate_has_any_web_presence`, `process_batch`,
  `process_batch_with_retry`, `collect_batches`, `process_collection`.

Python `float` values are modelled as exact decimals `m·10^e` plus explicit
`inf`/`nan` values and the IEEE-754 double overflow threshold 2^1024: in the
regime used by every theorem below (small integers scaled by 10^3 or 10^6)
double arithmetic is exact, so the decimal model agrees with CPython.
External effects (Firestore fetches, PostgreSQL commits) are modelled with
explicit oracles deciding success or failure of each call, and fallible
code returns `Except`.  String helpers (`strip`, `replace`, `in`) are
re-implemented structurally so that all definitions evaluate by `decide`.
-/

set_option exponentiation.threshold 1200

namespace RoadCo

/-! ### Python string primitives (structural re-implementations) -/

/-- Does the character list `pat` occur inside `s`? (`pat in s` for a
nonempty literal `pat`). -/
def chContains (pat : List Char) : List Char → Bool
  | [] => pat.isEmpty
  | c :: rest => pat.isPrefixOf (c :: rest) || chContains pat rest

/-- Python `pat in s` substring test for string values. -/
def strContains (s pat : String) : Bool :=
  chContains pat.data s.data

/-- Fuel-driven core of `str.replace` (the fuel is the length of the
remaining input, which strictly decreases at every step). -/
def chReplaceGo (pat repl : List Char) : ℕ → List Char → List Char
  | _, [] => []
  | 0, s => s
  | fuel + 1, c :: rest =>
    if pat ≠ [] ∧ pat.isPrefixOf (c :: rest) then
      repl ++ chReplaceGo pat repl fuel ((c :: rest).drop pat.length)
    else
      c :: chReplaceGo pat repl fuel rest

/-- Python `s.replace(pat, repl)` for a nonempty literal `pat`. -/
def strReplace (s pat repl : String) : String :=
  ⟨chReplaceGo pat.data repl.data s.data.length s.data⟩

/-- Python `s.strip()` (ASCII whitespace; the scripts only ever strip
spaces, tabs and newlines). -/
def strStrip (s : String) : String :=
  ⟨((s.data.dropWhile Char.isWhitespace).reverse.dropWhile Char.isWhitespace).reverse⟩

/-- Python `s.lower()` restricted to ASCII case mapping. -/
def strLower (s : String) : String :=
  ⟨s.data.map Char.toLower⟩

/-! ### Dynamically typed values -/

/-- A dynamically typed value as read from a Firestore document.  Mirrors
the Python values handled by `convert_value` and `has_value` (`None`,
`str`, `int`, `bool`, `list`, `dict`, Firestore timestamps). -/
inductive PyVal where
  | none
  | str (s : String)
  | int (n : Int)
  | bool (b : Bool)
  | list (l : List PyVal)
  | dict (d : List (String × PyVal))
  | ts (t : Int)
deriving Repr

/-- Exceptions that the embedded Python fragments can raise. -/
inductive PyErr where
  | valueError
  | overflowError
deriving Repr, DecidableEq

instance {ε α : Type} [DecidableEq ε] [DecidableEq α] : DecidableEq (Except ε α) := fun a b =>
  match a, b with
  | .ok x, .ok y =>
    if h : x = y then .isTrue (by rw [h]) else .isFalse (by simp [h])
  | .error x, .error y =>
    if h : x = y then .isTrue (by rw [h]) else .isFalse (by simp [h])
  | .ok _, .error _ => .isFalse (by simp)
  | .error _, .ok _ => .isFalse (by simp)

/-! ### CPython `float` and `int()` -/

/-- The value of a CPython `float` as produced by `float(str)` and by the
scalings in `parse_numeric`: an exact decimal `m·10^e`, a signed infinity,
or NaN.  Every theorem below evaluates the model only where double
arithmetic is exact, so finite values are kept exact. -/
inductive PyFloat where
  | finite (m : ℤ) (e : ℤ)
  | inf (neg : Bool)
  | nan
deriving Repr

/-- `2^1024 ≤ |m·10^e|`, the double overflow test, done in integers. -/
def decOverflows (m e : ℤ) : Bool :=
  if 0 ≤ e then 2 ^ 1024 ≤ m.natAbs * 10 ^ e.toNat
  else 2 ^ 1024 * 10 ^ (-e).toNat ≤ m.natAbs

/-- Build a finite float, overflowing to a signed infinity past the double
range (as CPython does: `float('1e400') == inf`). -/
def mkFinite (m e : ℤ) : PyFloat :=
  if decOverflows m e then .inf (decide (m < 0)) else .finite m e

/-- Read a nonempty all-digit character list as a natural number. -/
def digitsToNat (cs : List Char) : Option ℕ :=
  if cs ≠ [] ∧ cs.all Char.isDigit then
    some (cs.foldl (fun acc c => acc * 10 + (c.toNat - 48)) 0)
  else
    Option.none

/-- Split a leading `+`/`-` sign off a character list; `true` means negative. -/
def splitSign : List Char → Bool × List Char
  | '+' :: t => (false, t)
  | '-' :: t => (true, t)
  | t => (false, t)

/-- Parse the mantissa `digits [. digits]` (at least one digit overall) of a
float literal into `(digits value, number of fractional digits)`. -/
def parseMantissa (cs : List Char) : Option (ℕ × ℕ) :=
  let ip := cs.takeWhile (fun c => c ≠ '.')
  let rest := cs.dropWhile (fun c => c ≠ '.')
  let fp : Option (List Char) := match rest with
    | [] => some []
    | _ :: t => if t.all (fun c => c ≠ '.') then some t else Option.none
  match fp with
  | Option.none => Option.none
  | some fp =>
    match digitsToNat (ip ++ fp) with
    | some m => some (m, fp.length)
    | Option.none => Option.none

/-- Parse the exponent part (after `e`/`E`) into an integer. -/
def parseExp (cs : List Char) : Option ℤ :=
  let (neg, ds) := splitSign cs
  match digitsToNat ds with
  | some n => some (if neg then -(n : ℤ) else (n : ℤ))
  | Option.none => Option.none

/-- CPython `float(s)`: strip surrounding whitespace, accept an optional
sign, then `inf`/`infinity`/`nan` (case-insensitive) or a decimal literal
with optional fraction and exponent.  Returns `Option.none` where CPython
raises `ValueError`.  (Digit-group underscores and subnormal rounding are
not modelled; no theorem below depends on them.) -/
def pyFloatOfString (s : String) : Option PyFloat :=
  let cs := (strStrip s).data
  let (neg, rest) := splitSign cs
  let lower : String := ⟨rest.map Char.toLower⟩
  if lower = "inf" ∨ lower = "infinity" then some (.inf neg)
  else if lower = "nan" then some .nan
  else
    let mant := rest.takeWhile (fun c => c ≠ 'e' ∧ c ≠ 'E')
    let expPart := rest.dropWhile (fun c => c ≠ 'e' ∧ c ≠ 'E')
    let exp : Option ℤ := match expPart with
      | [] => some 0
      | _ :: t => parseExp t
    match parseMantissa mant, exp with
    | some (m, fracDigits), some e =>
      let sm : ℤ := if neg then -(m : ℤ) else (m : ℤ)
      some (mkFinite sm (e - fracDigits))
    | _, _ => Option.none

/-- `num * scale` of `parse_numeric`, where the scale is the power of ten
`10^k`; overflows to infinity past the double range. -/
def pyFloatMulPow10 (f : PyFloat) (k : ℕ) : PyFloat :=
  match f with
  | .finite m e => mkFinite m (e + k)
  | .inf n => .inf n
  | .nan => .nan

/-- CPython `int(f)` on a float: truncates finite values toward zero,
raises `ValueError` on NaN and `OverflowError` on infinities. -/
def pyIntOfFloat : PyFloat → Except PyErr ℤ
  | .finite m e => .ok (if 0 ≤ e then m * 10 ^ e.toNat else Int.tdiv m (10 ^ (-e).toNat))
  | .inf _ => .error .overflowError
  | .nan => .error .valueError

/-! ### `parse_numeric` (src/scripts/import_csv2_quiet.py, lines 145-165) -/

/-- `parse_numeric(header, val)`.  Unit scale is taken from the header
(`百万` → 10^6, `千円` → 10^3) or overridden by a unit suffix inside the
value; commas and spaces are removed; the value is converted with `float`
and truncated with `int`.  Only `ValueError` is caught
(`except ValueError: return None`), so an `OverflowError` raised by
`int()` on an infinite float escapes — the model returns it as `.error`. -/
def parse_numeric (header val : String) : Except PyErr (Option ℤ) :=
  if val = "" then .ok Option.none else
  let s := strStrip val
  if s = "" ∨ s = "-" then .ok Option.none else
  let scale0 : ℕ :=
    if strContains header "百万" then 6
    else if strContains header "千円" then 3
    else 0
  let (scale, s1) :=
    if strContains s "百万円" then (6, strReplace s "百万円" "")
    else if strContains s "千円" then (3, strReplace s "千円" "")
    else (scale0, s)
  let s2 := strReplace (strReplace s1 "," "") " " ""
  match pyFloatOfString s2 with
  | Option.none => .ok Option.none
  | some f =>
    match pyIntOfFloat (pyFloatMulPow10 f scale) with
    | .ok n => .ok (some n)
    | .error .valueError => .ok Option.none
    | .error .overflowError => .error .overflowError

example : parse_numeric "直近売上" "5000000" = .ok (some 5000000) := by decide
example : parse_numeric "直近売上" "abc" = .ok Option.none := by decide
example : parse_numeric "資本金" "5,000,000" = .ok (some 5000000) := by decide
example : parse_numeric "総資産(千円)" "1,234" = .ok (some 1234000) := by decide
example : parse_numeric "資本金" "1e400" = .error .overflowError := by decide

/-! ### `convert_value` and `prepare_company_data`
(src/backend/scripts/migrate_companies.py, lines 95-256) -/

/-- `json.dumps(value, ensure_ascii=False, default=str)`, structurally.
(Escaping of special characters inside strings is not modelled; no theorem
below depends on the exact rendering.) -/
def jsonDumps : PyVal → String
  | .none => "null"
  | .str s => "\"" ++ s ++ "\""
  | .int n => toString n
  | .bool b => if b then "true" else "false"
  | .ts t => "\"" ++ toString t ++ "\""
  | .list l => "[" ++ String.intercalate ", " (l.attach.map (fun x => jsonDumps x.1)) ++ "]"
  | .dict d =>
    "\x7b" ++
      String.intercalate ", "
        (d.attach.map (fun x => "\"" ++ x.1.1 ++ "\": " ++ jsonDumps x.1.2)) ++
    "\x7d"
decreasing_by
  · have := List.sizeOf_lt_of_mem x.2
    simp only [PyVal.list.sizeOf_spec]
    omega
  · have h1 := List.sizeOf_lt_of_mem x.2
    have h2 : sizeOf x.1.2 < sizeOf x.1 := by
      obtain ⟨⟨k, v⟩, hx⟩ := x; simp
    simp only [PyVal.dict.sizeOf_spec]
    omega

/-- `convert_value` (lines 104-121): `None`, timestamps and lists pass
through, dicts become their JSON text, scalars pass through. -/
def convert_value : PyVal → PyVal
  | .none => .none
  | .ts t => .ts t
  | .list l => .list l
  | .dict d => .str (jsonDumps (.dict d))
  | .str s => .str s
  | .int n => .int n
  | .bool b => .bool b

/-- The camelCase → snake_case `field_mapping` of `prepare_company_data`
(lines 127-242).  The Python dict literal repeats the key
`businessDescriptions`; dict literals keep the last binding, so the
single surviving entry maps it to `business_descriptions_text`. -/
def field_mapping : List (String × String) :=
  [("companyId", "company_id"), ("nameEn", "name_en"),
   ("corporateNumber", "corporate_number"), ("corporationType", "corporation_type"),
   ("nikkeiCode", "nikkei_code"), ("createdAt", "created_at"),
   ("updatedAt", "updated_at"), ("updateDate", "update_date"),
   ("updateCount", "update_count"), ("changeCount", "change_count"),
   ("qualificationGrade", "qualification_grade"),
   ("headquartersAddress", "headquarters_address"), ("postalCode", "postal_code"),
   ("departmentLocation", "department_location"), ("phoneNumber", "phone_number"),
   ("contactPhoneNumber", "contact_phone_number"), ("companyUrl", "company_url"),
   ("contactFormUrl", "contact_form_url"), ("representativeName", "representative_name"),
   ("representativeKana", "representative_kana"),
   ("representativeTitle", "representative_title"),
   ("representativeBirthDate", "representative_birth_date"),
   ("representativePhone", "representative_phone"),
   ("representativePostalCode", "representative_postal_code"),
   ("representativeHomeAddress", "representative_home_address"),
   ("representativeRegisteredAddress", "representative_registered_address"),
   ("representativeAlmaMater", "representative_alma_mater"),
   ("executiveName1", "executive_name1"), ("executiveName2", "executive_name2"),
   ("executiveName3", "executive_name3"), ("executiveName4", "executive_name4"),
   ("executiveName5", "executive_name5"), ("executiveName6", "executive_name6"),
   ("executiveName7", "executive_name7"), ("executiveName8", "executive_name8"),
   ("executiveName9", "executive_name9"), ("executiveName10", "executive_name10"),
   ("executivePosition1", "executive_position1"), ("executivePosition2", "executive_position2"),
   ("executivePosition3", "executive_position3"), ("executivePosition4", "executive_position4"),
   ("executivePosition5", "executive_position5"), ("executivePosition6", "executive_position6"),
   ("executivePosition7", "executive_position7"), ("executivePosition8", "executive_position8"),
   ("executivePosition9", "executive_position9"), ("executivePosition10", "executive_position10"),
   ("industryLarge", "industry_large"), ("industryMiddle", "industry_middle"),
   ("industrySmall", "industry_small"), ("industryDetail", "industry_detail"),
   ("industryCategories", "industry_categories"),
   ("businessItems", "business_items"), ("businessSummary", "business_summary"),
   ("demandProducts", "demand_products"), ("specialNote", "special_note"),
   ("capitalStock", "capital_stock"), ("latestRevenue", "latest_revenue"),
   ("latestProfit", "latest_profit"), ("revenueFromStatements", "revenue_from_statements"),
   ("operatingIncome", "operating_income"), ("totalAssets", "total_assets"),
   ("totalLiabilities", "total_liabilities"), ("netAssets", "net_assets"),
   ("issuedShares", "issued_shares"), ("marketSegment", "market_segment"),
   ("latestFiscalYearMonth", "latest_fiscal_year_month"), ("fiscalMonth", "fiscal_month"),
   ("fiscalMonth1", "fiscal_month1"), ("fiscalMonth2", "fiscal_month2"),
   ("fiscalMonth3", "fiscal_month3"), ("fiscalMonth4", "fiscal_month4"),
   ("fiscalMonth5", "fiscal_month5"), ("employeeCount", "employee_count"),
   ("employeeNumber", "employee_number"), ("factoryCount", "factory_count"),
   ("officeCount", "office_count"), ("storeCount", "store_count"),
   ("averageAge", "average_age"), ("averageYearsOfService", "average_years_of_service"),
   ("averageOvertimeHours", "average_overtime_hours"), ("averagePaidLeave", "average_paid_leave"),
   ("femaleExecutiveRatio", "female_executive_ratio"),
   ("dateOfEstablishment", "date_of_establishment"), ("foundingYear", "founding_year"),
   ("bankCorporateNumber", "bank_corporate_number"),
   ("departmentName1", "department_name1"), ("departmentName2", "department_name2"),
   ("departmentName3", "department_name3"), ("departmentName4", "department_name4"),
   ("departmentName5", "department_name5"), ("departmentName6", "department_name6"),
   ("departmentName7", "department_name7"),
   ("departmentAddress1", "department_address1"), ("departmentAddress2", "department_address2"),
   ("departmentAddress3", "department_address3"), ("departmentAddress4", "department_address4"),
   ("departmentAddress5", "department_address5"), ("departmentAddress6", "department_address6"),
   ("departmentAddress7", "department_address7"),
   ("departmentPhone1", "department_phone1"), ("departmentPhone2", "department_phone2"),
   ("departmentPhone3", "department_phone3"), ("departmentPhone4", "department_phone4"),
   ("departmentPhone5", "department_phone5"), ("departmentPhone6", "department_phone6"),
   ("departmentPhone7", "department_phone7"),
   ("companyDescription", "company_description"),
   ("businessDescriptions", "business_descriptions_text"),
   ("salesNotes", "sales_notes"), ("profileUrl", "profile_url"),
   ("externalDetailUrl", "external_detail_url"), ("metaKeywords", "meta_keywords")]

/-- Insert into an association list with Python-dict overwrite semantics. -/
def dictInsert (d : List (String × PyVal)) (k : String) (v : PyVal) : List (String × PyVal) :=
  if d.any (fun p => p.1 = k) then d.map (fun p => if p.1 = k then (k, v) else p)
  else d ++ [(k, v)]

/-- `prepare_company_data` (lines 124-256): start from `{'id': doc_id}`,
rename every document field with `field_mapping` (default:
lower-cased field name) and convert its value with `convert_value`. -/
def prepare_company_data (docId : String) (docData : List (String × PyVal)) :
    List (String × PyVal) :=
  docData.foldl
    (fun d kv =>
      let pgKey := ((field_mapping.lookup kv.1).getD (strLower kv.1))
      dictInsert d pgKey (convert_value kv.2))
    [("id", .str docId)]

/-! ### `insert_companies_batch` (migrate_companies.py, lines 306-338)

The UPSERT statement is
`INSERT INTO companies (...) VALUES (...) ON CONFLICT (id) DO UPDATE SET
col = EXCLUDED.col` for every column except `id`.  Because the `VALUES`
tuple supplies a value (possibly NULL) for every listed column and the
`id` column is equal on conflict anyway, the incoming tuple replaces the
stored row wholesale.  A sink row is modelled as its key plus a total
column valuation (`Option.none` = SQL NULL, covering both an absent field
and a Python `None` value). -/

/-- One row of the `companies` sink table.  Document ids are modelled as
naturals (any totally ordered key type works the same way). -/
structure PgRow where
  id : ℕ
  cols : String → Option PyVal

/-- The sink table, keyed by `id`. -/
def PgSink : Type := ℕ → Option PgRow

/-- Upsert of a single row: `ON CONFLICT (id) DO UPDATE SET
col = EXCLUDED.col` for all non-`id` columns replaces the stored tuple
with the incoming one. -/
def upsertRow (s : PgSink) (r : PgRow) : PgSink :=
  fun i => if i = r.id then some r else s i

/-- `execute_batch` of the UPSERT statement over a list of rows, in order. -/
def applyRows (s : PgSink) (rs : List PgRow) : PgSink :=
  rs.foldl upsertRow s

/-- `insert_companies_batch conn batch` when the sink accepts the
statement: commit the batch; on an execution error the transaction is
rolled back (sink unchanged) and the exception is re-raised
(lines 330-338: `conn.rollback(); raise`).  `fault = true` models an
execution error from the sink. -/
def insert_companies_batch (fault : Bool) (s : PgSink) (rs : List PgRow) :
    Except Unit PgSink :=
  if fault then .error () else .ok (applyRows s rs)

/-! ### `sql_merge` (src/scripts/import_active_companies.py, lines 123-167) -/

/-- The columns touched by the `ON CONFLICT (corporate_number) DO UPDATE`
clause of `sql_merge`. -/
structure ActiveRow where
  corporate_number : ℕ
  name : Option String
  address : Option String
  representative_name : Option String
  company_url : Option String
  prefecture : Option String
  legal_form : Option String
  capital_stock : Option ℤ
  employee_count : Option ℤ
  founded_year : Option ℤ
  is_active : Bool

/-- SQL `NULLIF(x, '')`. -/
def nullifEmpty : Option String → Option String
  | some s => if s = "" then Option.none else some s
  | Option.none => Option.none

/-- Text columns: `COALESCE(NULLIF(companies.col, ''), EXCLUDED.col)`. -/
def mergeText (existing incoming : Option String) : Option String :=
  match nullifEmpty existing with
  | some v => some v
  | Option.none => incoming

/-- Numeric columns: `COALESCE(companies.col, EXCLUDED.col)`. -/
def mergeNum (existing incoming : Option ℤ) : Option ℤ :=
  match existing with
  | some v => some v
  | Option.none => incoming

/-- The `DO UPDATE SET` clause of `sql_merge` applied to a conflicting
pair of rows (stored row `companies`, incoming row `excluded`). -/
def sql_merge_update (companies excluded : ActiveRow) : ActiveRow :=
  { corporate_number := companies.corporate_number
    name := mergeText companies.name excluded.name
    address := mergeText companies.address excluded.address
    representative_name := mergeText companies.representative_name excluded.representative_name
    company_url := mergeText companies.company_url excluded.company_url
    prefecture := mergeText companies.prefecture excluded.prefecture
    legal_form := mergeText companies.legal_form excluded.legal_form
    capital_stock := mergeNum companies.capital_stock excluded.capital_stock
    employee_count := mergeNum companies.employee_count excluded.employee_count
    founded_year := mergeNum companies.founded_year excluded.founded_year
    is_active := true }

/-- The whole `INSERT ... ON CONFLICT (corporate_number) DO UPDATE`
statement over the staging rows, keyed by corporate number. -/
def sql_merge (s : ℕ → Option ActiveRow) (staged : List ActiveRow) : ℕ → Option ActiveRow :=
  staged.foldl
    (fun s r => fun cn =>
      if cn = r.corporate_number then
        match s cn with
        | some existing => some (sql_merge_update existing r)
        | Option.none => some r
      else s cn)
    s

/-! ### Backfill transform
(src/backend/scripts/backfill_hasAnyWebPresence_optimized.py) -/

/-- `WEB_PRESENCE_FIELDS` (lines 42-52). -/
def web_presence_fields : List String :=
  ["companyUrl", "contactFormUrl", "urls", "profileUrl", "externalDetailUrl",
   "facebook", "linkedin", "wantedly", "youtrust"]

/-- `has_value` (lines 70-86): `None`, blank/"null"/"undefined" strings and
empty collections are invalid; numbers, booleans and anything else are
valid. -/
def has_value : PyVal → Bool
  | .none => false
  | .str s =>
    let n := strStrip s
    !(n = "") && !(strLower n = "null") && !(strLower n = "undefined")
  | .int _ => true
  | .bool _ => true
  | .list l => !l.isEmpty
  | .dict d => !d.isEmpty
  | .ts _ => true

/-- A Firestore document body: field name → value (`Option.none` = field
absent). -/
def DataMap : Type := String → Option PyVal

/-- `calculate_has_any_web_presence` (lines 89-100). -/
def calculate_has_any_web_presence (data : DataMap) : Bool :=
  web_presence_fields.any fun f =>
    match data f with
    | some v => has_value v
    | Option.none => false

/-- Python `==` between a stored `hasAnyWebPresence` value and the computed
boolean (`True == 1` holds in Python). -/
def pyEqBool (v : PyVal) (b : Bool) : Bool :=
  match v with
  | .bool b0 => b0 == b
  | .int n => n == (if b then 1 else 0)
  | _ => false

/-- `batch.update(doc_ref, {"hasAnyWebPresence": computed})`. -/
def writeHW (d : DataMap) : DataMap :=
  fun k =>
    if k = "hasAnyWebPresence" then some (.bool (calculate_has_any_web_presence d))
    else d k

/-- Per-document effect of `process_batch` (lines 257-273): skip when the
stored field already equals the computed value, otherwise write it. -/
def stepOrSkip (d : DataMap) : DataMap :=
  match d "hasAnyWebPresence" with
  | some ev => if pyEqBool ev (calculate_has_any_web_presence d) then d else writeHW d
  | Option.none => writeHW d

/-- One whole backfill run over the collection: every document receives
the `stepOrSkip` treatment (the collected batches partition the
collection; batch boundaries do not affect the final collection state). -/
def runBackfill (c : ℕ → Option DataMap) : ℕ → Option DataMap :=
  fun i => (c i).map stepOrSkip

/-! ### `process_batch` counting (backfill, lines 238-291)

The per-document loop counts each document as skipped (stored flag already
equal), updated (added to the pending Firestore write batch) or errored
(the per-document `except` caught an exception).  The only failing
operation reachable in the loop is `batch.commit()`, fired when the
pending count reaches `MAX_BATCH_SIZE`; each commit call succeeds or
fails independently, decided by a `commitFails` oracle indexed by the
number of commit calls issued so far in this invocation.  A failed
in-loop commit is caught by the per-document `except` (`errors += 1`)
*after* the document was already counted in `updated`, and the write
batch is not reset.  The trailing commit (lines 287-289) sits outside
the per-document `try`, so its failure propagates out of
`process_batch`. -/

/-- `MAX_BATCH_SIZE` (line 55). -/
def max_batch_size : ℕ := 500

/-- Loop state of `process_batch`: the three counters, the number of
pending writes in the current Firestore write batch, and the number of
`batch.commit()` calls issued so far (the index into the commit
oracle). -/
structure PBState where
  updated : ℕ
  skipped : ℕ
  errors : ℕ
  batch_count : ℕ
  commits : ℕ
deriving Repr, DecidableEq

/-- The skip test at lines 262-267: the document already carries a
`hasAnyWebPresence` field equal (Python `==`) to the computed value. -/
def isSkip (d : DataMap) : Bool :=
  match d "hasAnyWebPresence" with
  | some ev => pyEqBool ev (calculate_has_any_web_presence d)
  | Option.none => false

/-- One iteration of the document loop of `process_batch`: skip, or stage
the write (`batch.update`, `batch_count += 1`, `updated += 1`) and, at
`MAX_BATCH_SIZE` staged writes, issue the next `batch.commit()` call —
`commitFails st.commits` decides that individual call.  A failing in-loop
commit is caught by the per-document `except` (`errors += 1`) after the
document was already counted in `updated`, and the lines resetting the
batch (`batch = db.batch(); batch_count = 0`) are skipped, so the staged
count keeps growing; a successful commit resets the staged batch. -/
def pbStep (commitFails : ℕ → Bool) (st : PBState) (doc : ℕ × DataMap) : PBState :=
  if isSkip doc.2 then { st with skipped := st.skipped + 1 }
  else if max_batch_size ≤ st.batch_count + 1 then
    if commitFails st.commits then
      { st with batch_count := st.batch_count + 1, updated := st.updated + 1,
                errors := st.errors + 1, commits := st.commits + 1 }
    else
      { st with batch_count := 0, updated := st.updated + 1,
                commits := st.commits + 1 }
  else { st with batch_count := st.batch_count + 1, updated := st.updated + 1 }

/-- `process_batch` (lines 238-291): fold the loop, then commit any
pending writes with one more `batch.commit()` call; that trailing call is
outside the per-document `try`, so its failure escapes as an exception. -/
def process_batch (commitFails : ℕ → Bool) (docs : List (ℕ × DataMap)) :
    Except Unit (ℕ × ℕ × ℕ) :=
  let st := docs.foldl (pbStep commitFails) ⟨0, 0, 0, 0, 0⟩
  if 0 < st.batch_count then
    if commitFails st.commits then .error ()
    else .ok (st.updated, st.skipped, st.errors)
  else .ok (st.updated, st.skipped, st.errors)

/-- `MAX_RETRIES` and `RETRY_DELAY` (lines 62-63; delays in seconds). -/
def max_retries : ℕ := 3

def retry_delay : ℕ := 1

/-- Loop of `process_batch_with_retry` (lines 202-235).  The oracle gives,
for each attempt, the commit-call failure oracle of that attempt's
`process_batch` invocation and whether the raised error message counts as
retryable.  Returns the reported outcome together with the list of
backoff sleeps performed (`RETRY_DELAY * 2^attempt`). -/
def pbwrGo (oracle : ℕ → (ℕ → Bool) × Bool) (docs : List (ℕ × DataMap)) :
    ℕ → ℕ → List ℕ → (ℕ × ℕ × ℕ) × List ℕ
  | 0, _, waits => ((0, 0, docs.length), waits.reverse)
  | rem + 1, attempt, waits =>
    match process_batch (oracle attempt).1 docs with
    | .ok out => (out, waits.reverse)
    | .error _ =>
      if (oracle attempt).2 ∧ attempt < max_retries - 1 then
        pbwrGo oracle docs rem (attempt + 1) (retry_delay * 2 ^ attempt :: waits)
      else
        ((0, 0, docs.length), waits.reverse)

/-- `process_batch_with_retry`: up to `MAX_RETRIES` attempts with
exponential backoff; a non-retryable error or retry exhaustion reports
`(0, 0, len(batch_docs))` — zero updated, zero skipped, all errors. -/
def process_batch_with_retry (oracle : ℕ → (ℕ → Bool) × Bool)
    (docs : List (ℕ × DataMap)) : (ℕ × ℕ × ℕ) × List ℕ :=
  pbwrGo oracle docs max_retries 0 []

/-- Outcome accumulation of `process_collection` (lines 452-489). -/
def outcome_add (a b : ℕ × ℕ × ℕ) : ℕ × ℕ × ℕ :=
  (a.1 + b.1, a.2.1 + b.2.1, a.2.2 + b.2.2)

/-- The per-batch outcomes gathered by `process_collection`: each work
item is handed to `process_batch_with_retry` with its own oracle;
batches are independent (`ThreadPoolExecutor` submits each separately). -/
def worker_outcomes
    (items : List (List (ℕ × DataMap) × (ℕ → (ℕ → Bool) × Bool))) :
    List (ℕ × ℕ × ℕ) :=
  items.map (fun it => (process_batch_with_retry it.2 it.1).1)

/-- Grand totals of `process_collection` (`total_updated`, `total_skipped`,
`total_errors`). -/
def process_collection_totals
    (items : List (List (ℕ × DataMap) × (ℕ → (ℕ → Bool) × Bool))) :
    ℕ × ℕ × ℕ :=
  (worker_outcomes items).foldl outcome_add (0, 0, 0)

/-- The oracle of a run in which every Firestore commit succeeds (and any
exception — there is none — would count as retryable). -/
def noFailOracle : ℕ → (ℕ → Bool) × Bool :=
  fun _ => (fun _ => false, true)

/-! ### Source-fetch retry of `collect_batches` (lines 312-383) -/

/-- Result of one Firestore query attempt: a page, or an exception whose
class/message is (not) retryable per the checks at lines 343-351/374. -/
inductive FetchTry where
  | ok
  | exn (retryable : Bool)

/-- `max_retries = 5` of the fetch loop (line 315). -/
def collect_max_retries : ℕ := 5

/-- The fetch-retry loop: try, and on a retryable exception sleep
`5 * retry_count` seconds and try again until `retry_count > max_retries`;
a non-retryable exception or exhaustion re-raises.  Returns the index of
the successful attempt and the sleeps performed, or the sleeps performed
before the error propagated. -/
def fwrGo (oracle : ℕ → FetchTry) : ℕ → ℕ → List ℕ → Except (List ℕ) (ℕ × List ℕ)
  | 0, _, waits => .error waits.reverse
  | fuel + 1, t, waits =>
    match oracle t with
    | .ok => .ok (t, waits.reverse)
    | .exn retryable =>
      let rc := t + 1
      if collect_max_retries < rc then .error waits.reverse
      else if retryable then fwrGo oracle fuel (t + 1) (5 * rc :: waits)
      else .error waits.reverse

/-- One guarded fetch of `collect_batches` (initial try plus up to
5 retries). -/
def collect_fetch_with_retry (oracle : ℕ → FetchTry) : Except (List ℕ) (ℕ × List ℕ) :=
  fwrGo oracle (collect_max_retries + 2) 0 []

/-! ### Cursor pagination and batch grouping -/

/-- A source document: a sortable unique key plus its field/value body
(document ids are modelled as naturals; any totally ordered key behaves
identically). -/
structure SDoc where
  id : ℕ
  data : List (String × PyVal)

/-- One Firestore page query:
`collection.order_by(documentId).start_after(cursor).limit(P).get()`
against a fixed snapshot `src` sorted by id. -/
def fetchAfter (src : List SDoc) (cursor : Option ℕ) (P : ℕ) : List SDoc :=
  (match cursor with
   | Option.none => src
   | some c => src.filter (fun d => c < d.id)).take P

/-- Id of the last document of a page (`snapshot[-1]` / `docs_list[-1]`). -/
def lastIdOf (l : List SDoc) : ℕ :=
  match l.getLast? with
  | some d => d.id
  | Option.none => 0

/-- Appending one fetched document to the current batch, flushing it into
the collected list when it reaches `batch_size` (lines 389-397). -/
def pushDoc (W : ℕ) (st : List (List SDoc) × List SDoc) (d : SDoc) :
    List (List SDoc) × List SDoc :=
  let cur := st.2 ++ [d]
  if W ≤ cur.length then (st.1 ++ [cur], []) else (st.1, cur)

/-- After the fetch loop ends, a nonempty current batch is appended as a
final partial work item (lines 409-411). -/
def closeBatches (st : List (List SDoc) × List SDoc) : List (List SDoc) :=
  st.1 ++ (if st.2.isEmpty then [] else [st.2])

/-- The paginated fetch-and-group loop of `collect_batches`
(lines 294-414): fetch a page after the cursor, stop on an empty page,
push its documents into batches, stop after a page shorter than the fetch
size, else advance the cursor to the page's last document.  The fuel is
an upper bound on the number of pages (each consumed page is nonempty). -/
def collectGo (src : List SDoc) (P W : ℕ) :
    ℕ → Option ℕ → List (List SDoc) × List SDoc → List (List SDoc)
  | 0, _, st => closeBatches st
  | fuel + 1, cursor, st =>
    let page := fetchAfter src cursor P
    if page.isEmpty then closeBatches st
    else
      let st1 := page.foldl (pushDoc W) st
      if page.length < P then closeBatches st1
      else collectGo src P W fuel (some (lastIdOf page)) st1

/-- `collect_batches(db, collection, batch_size)`: the fetch size is
`FETCH_BATCH_SIZE = 500` in the backfill and `BATCH_SIZE = 1000` in the
migration; both are covered by the parameter `P`, the work-item size by
`W`.  (The per-fetch retry guard is modelled separately by
`collect_fetch_with_retry`; here every fetch succeeds.) -/
def collect_batches (src : List SDoc) (P W : ℕ) : List (List SDoc) :=
  collectGo src P W (src.length + 1) Option.none ([], [])

/-- Exact chunking of a list into `W`-sized groups (specification-side
yardstick for the grouping behaviour; the last chunk may be short). -/
def chunkExact (W : ℕ) (l : List α) : List (List α) :=
  match l, W with
  | [], _ => []
  | _ :: _, 0 => []
  | c :: rest, W + 1 =>
    (c :: rest).take (W + 1) :: chunkExact (W + 1) ((c :: rest).drop (W + 1))
termination_by l.length
decreasing_by
  rw [List.length_drop]
  simp only [List.length_cons]
  omega

/-! ### The migration loop and its resume file
(migrate_companies.py, lines 341-445) -/

/-- State of `migrate_companies_resume.txt`: deleted/absent, or holding
the id written by `save_resume_point` (an empty file behaves like an
absent one for `load_resume_point` and is not distinguished). -/
inductive ResumeFile where
  | absent
  | saved (id : ℕ)
deriving Repr, DecidableEq

/-- `load_resume_point` (lines 77-85): the saved id, if any. -/
def load_resume_point : ResumeFile → Option ℕ
  | .absent => Option.none
  | .saved i => some i

/-- What the run looked like just after one page was processed: the page's
last document id and the resume-file content at that point. -/
structure PageLog where
  lastId : ℕ
  fileAfter : ResumeFile
deriving Repr, DecidableEq

/-- Result of a migration run: normal completion or an aborted run (the
re-raised insert error / interrupt), each carrying the final sink, the
final resume-file state and the per-page trace. -/
inductive MigResult where
  | normal (sink : PgSink) (file : ResumeFile) (trace : List PageLog)
  | failed (sink : PgSink) (file : ResumeFile) (trace : List PageLog)

/-- `get_insert_columns` (lines 259-303) is the fixed column list of the
UPSERT; a prepared row is restricted to it (`company.get(col)` yields
`None` for anything else).  For the row-replacement semantics proved
below only its containing `id` matters, so the list is kept abstract as
the predicate "every sink column"; the restriction is the identity on
the prepared data and `Option.none` elsewhere. -/
def lookupCol (prepared : List (String × PyVal)) (c : String) : Option PyVal :=
  match prepared.lookup c with
  | some .none => Option.none
  | some v => some v
  | Option.none => Option.none

/-- The `PgRow` submitted for one source document: key `doc.id`, columns
from `prepare_company_data`. -/
def rowOfDoc (d : SDoc) : PgRow :=
  { id := d.id
    cols := lookupCol (prepare_company_data (toString d.id) d.data) }

/-- The page loop of `migrate_companies` (lines 370-418): fetch a page
after the cursor (initially the resume point), stop on an empty page,
convert and bulk-insert the page, save the resume point, stop after a
short page; on an insert error roll back, save the resume point and
re-raise (lines 431-441); on normal completion delete the resume file
(lines 427-429).  `faults k` says whether the `k`-th page's INSERT raises. -/
def migrateGo (src : List SDoc) (P : ℕ) (faults : ℕ → Bool) :
    ℕ → Option ℕ → PgSink → ResumeFile → List PageLog → ℕ → MigResult
  | 0, _, sink, file, trace, _ => .failed sink file trace
  | fuel + 1, cursor, sink, _file, trace, pageIx =>
    let page := fetchAfter src cursor P
    if page.isEmpty then .normal sink .absent trace
    else
      let rows := page.map rowOfDoc
      match insert_companies_batch (faults pageIx) sink rows with
      | .error _ => .failed sink (.saved (lastIdOf page)) trace
      | .ok sink1 =>
        let file1 := ResumeFile.saved (lastIdOf page)
        let trace1 := trace ++ [⟨lastIdOf page, file1⟩]
        if page.length < P then .normal sink1 .absent trace1
        else migrateGo src P faults fuel (some (lastIdOf page)) sink1 file1 trace1 (pageIx + 1)

/-- `migrate_companies`: load the resume point, then run the page loop
from it. -/
def migrate_companies (src : List SDoc) (P : ℕ) (sink0 : PgSink)
    (file0 : ResumeFile) (faults : ℕ → Bool) : MigResult :=
  migrateGo src P faults (src.length + 1) (load_resume_point file0) sink0 file0 [] 0

/-- The page-by-page loop of `migrate_companies` applied to whole fetched
pages in order (`applyRows` once per page). -/
def applyBatches (s : PgSink) (bs : List (List PgRow)) : PgSink :=
  bs.foldl applyRows s

/-! ### Concrete instances and specification-side helpers -/

/-- The last row carrying key `i` in a row list, if any (rows later in the
list win, as later statements of `execute_batch` overwrite earlier ones). -/
def findLastRow (i : ℕ) : List PgRow → Option PgRow
  | [] => Option.none
  | r :: t =>
    match findLastRow i t with
    | some r' => some r'
    | Option.none => if r.id = i then some r else Option.none

/-- A stored sink row holding `X = "foo"`. -/
def c1Row0 : PgRow :=
  { id := 0, cols := fun c => if c = "X" then some (.str "foo") else Option.none }

/-- A sink containing only that row. -/
def c1Sink : PgSink := fun i => if i = 0 then some c1Row0 else Option.none

/-- An incoming row for the same id whose `X` is NULL. -/
def c1Inc : PgRow := { id := 0, cols := fun _ => Option.none }

/-- A stored `companies` row with `name = "foo"` (import_active variant). -/
def c1ActiveStored : ActiveRow :=
  { corporate_number := 7, name := some "foo", address := Option.none,
    representative_name := Option.none, company_url := Option.none,
    prefecture := Option.none, legal_form := Option.none,
    capital_stock := some 31, employee_count := Option.none,
    founded_year := Option.none, is_active := false }

/-- An incoming staging row with everything NULL. -/
def c1ActiveInc : ActiveRow :=
  { corporate_number := 7, name := Option.none, address := Option.none,
    representative_name := Option.none, company_url := Option.none,
    prefecture := Option.none, legal_form := Option.none,
    capital_stock := Option.none, employee_count := Option.none,
    founded_year := Option.none, is_active := true }

/-- A source record whose body is empty (it transforms without skipping). -/
def failDoc (i : ℕ) : ℕ × DataMap := (i, fun _ => Option.none)

/-- Strict id-ordering of source documents (the `order_by(documentId)`
sort). -/
def idLt (a b : SDoc) : Prop := a.id < b.id

instance (a b : SDoc) : Decidable (idLt a b) :=
  inferInstanceAs (Decidable (a.id < b.id))

/-- The part of a fixed sorted snapshot strictly after a cursor. -/
def filterAfter (src : List SDoc) : Option ℕ → List SDoc
  | Option.none => src
  | some c => src.filter (fun d => c < d.id)

/-- A source snapshot of `n` documents with increasing ids and empty
bodies. -/
def mkSrc (n : ℕ) : List SDoc :=
  (List.range n).map (fun i => ⟨i, []⟩)

/-- Page-by-page specification of the migration loop: process the given
pages in order; a faulted page aborts with the resume file holding that
page's last id; otherwise insert the page, record it in the trace and
keep going; on completion the resume file is deleted. -/
def migrateSpec : List (List SDoc) → (ℕ → Bool) → PgSink → List PageLog → ℕ → MigResult
  | [], _, sink, trace, _ => .normal sink .absent trace
  | pg :: rest, faults, sink, trace, ix =>
    if faults ix then .failed sink (.saved (lastIdOf pg)) trace
    else
      migrateSpec rest faults (applyRows sink (pg.map rowOfDoc))
        (trace ++ [⟨lastIdOf pg, .saved (lastIdOf pg)⟩]) (ix + 1)

/-- A five-document source used to instantiate C10. -/
def src5 : List SDoc := [⟨1, []⟩, ⟨2, []⟩, ⟨3, []⟩, ⟨4, []⟩, ⟨5, []⟩]

/-! ## Helper lemmas -/

theorem applyRows_lookup (rs : List PgRow) : ∀ (s : PgSink) (i : ℕ),
    applyRows s rs i = match findLastRow i rs with
      | some r => some r
      | Option.none => s i := by
  induction rs with
  | nil => intro s i; simp [applyRows, findLastRow]
  | cons r t ih =>
    intro s i
    show applyRows (upsertRow s r) t i = _
    rw [ih]
    cases h : findLastRow i t with
    | some r' => simp [findLastRow, h]
    | none =>
      simp only [findLastRow, h, upsertRow]
      by_cases hir : i = r.id
      · subst hir; simp
      · have hri : ¬ r.id = i := fun hh => hir hh.symm
        simp [hir, hri]

theorem applyRows_idem (s : PgSink) (rs : List PgRow) :
    applyRows (applyRows s rs) rs = applyRows s rs := by
  funext i
  rw [applyRows_lookup, applyRows_lookup]
  cases h : findLastRow i rs with
  | some r => simp
  | none => rfl

theorem applyBatches_eq_flatten (bs : List (List PgRow)) : ∀ s : PgSink,
    applyBatches s bs = applyRows s bs.flatten := by
  induction bs with
  | nil => intro s; rfl
  | cons b t ih =>
    intro s
    show applyBatches (applyRows s b) t = _
    rw [ih]
    simp only [List.flatten_cons, applyRows, List.foldl_append]

theorem fetch_join_idem (s : PgSink) (bs : List (List PgRow)) :
    applyBatches (applyBatches s bs) bs = applyBatches s bs := by
  rw [applyBatches_eq_flatten, applyBatches_eq_flatten, applyRows_idem]

theorem any_congr' {α : Type} {l : List α} {p q : α → Bool}
    (h : ∀ a ∈ l, p a = q a) : l.any p = l.any q := by
  induction l with
  | nil => rfl
  | cons a t ih =>
    simp only [List.any_cons]
    rw [h a (by simp), ih (fun x hx => h x (by simp [hx]))]

theorem writeHW_web_field (d : DataMap) (f : String) (hf : f ∈ web_presence_fields) :
    writeHW d f = d f := by
  fin_cases hf <;> (simp only [writeHW]; rw [if_neg (by decide)])

theorem calc_writeHW (d : DataMap) :
    calculate_has_any_web_presence (writeHW d) = calculate_has_any_web_presence d := by
  unfold calculate_has_any_web_presence
  exact any_congr' fun f hf => by rw [writeHW_web_field d f hf]

theorem stepOrSkip_idem (d : DataMap) : stepOrSkip (stepOrSkip d) = stepOrSkip d := by
  by_cases hskip : ∃ ev, d "hasAnyWebPresence" = some ev ∧
      pyEqBool ev (calculate_has_any_web_presence d) = true
  · obtain ⟨ev, hev, heq⟩ := hskip
    have h1 : stepOrSkip d = d := by unfold stepOrSkip; rw [hev]; simp [heq]
    rw [h1, h1]
  · have h1 : stepOrSkip d = writeHW d := by
      unfold stepOrSkip
      cases hev : d "hasAnyWebPresence" with
      | some ev =>
        have : ¬ pyEqBool ev (calculate_has_any_web_presence d) = true := by
          intro hc; exact hskip ⟨ev, hev, hc⟩
        simp [this]
      | none => simp
    rw [h1]
    have h2 : writeHW d "hasAnyWebPresence" =
        some (.bool (calculate_has_any_web_presence d)) := by simp [writeHW]
    unfold stepOrSkip
    rw [h2, calc_writeHW]
    simp [pyEqBool]

theorem runBackfill_idem (c : ℕ → Option DataMap) :
    runBackfill (runBackfill c) = runBackfill c := by
  funext i
  unfold runBackfill
  cases c i with
  | some d => simp [stepOrSkip_idem]
  | none => rfl

/-! ## Claims C7 and C6 -/

/-- Claim C7: for every integer-column input, numeric parsing strips
formatting characters (commas, spaces) and scales by the detected unit
suffix: `"5"` under a column flagged as millions (`百万`) normalizes to
exactly 5000000, `"5000000"` under a plain integer column normalizes to
5000000 unchanged, and absent or unparsable input yields null rather than
an error.  All evaluations are in the regime where IEEE-754 double
arithmetic is exact. -/
theorem c7_unit_scaling :
    parse_numeric "売上(百万)" "5" = .ok (some 5000000) ∧
    parse_numeric "直近売上" "5000000" = .ok (some 5000000) ∧
    parse_numeric "直近売上" "" = .ok Option.none ∧
    parse_numeric "売上(百万)" "" = .ok Option.none ∧
    parse_numeric "直近売上" "abc" = .ok Option.none ∧
    parse_numeric "売上(百万)" "xyz" = .ok Option.none ∧
    parse_numeric "資本金" "5,000,000" = .ok (some 5000000) ∧
    parse_numeric "資本金" "5百万円" = .ok (some 5000000) ∧
    parse_numeric "総資産(千円)" "1,234" = .ok (some 1234000) := by
  decide

/-- Claim C6: the claim says the Record Transformer is total — it never
raises for any input.  The code violates this: `parse_numeric` wraps
`int(float(s))` in `except ValueError` only, so the input `"inf"` (or
`"1e400"`, `"Infinity"`) makes `int()` raise an uncaught `OverflowError`
even though the surrounding script promises per-row error isolation.
This theorem evaluates the embedded code at the failing inputs and
records the escaped exception; nearby malformed inputs (`"abc"`,
`"nan"`) are, as intended, swallowed into `None`. -/
theorem c6_transformer_raises_on_inf :
    parse_numeric "資本金" "inf" = .error .overflowError ∧
    parse_numeric "資本金" "1e400" = .error .overflowError ∧
    parse_numeric "資本金" "Infinity" = .error .overflowError ∧
    parse_numeric "資本金" "abc" = .ok Option.none ∧
    parse_numeric "資本金" "nan" = .ok Option.none := by
  decide

/-! ## Claim C1 -/

/-- Claim C1 counterexample: `insert_companies_batch` upserts with
`col = EXCLUDED.col` (no COALESCE), so upserting an incoming row whose
`X` is NULL over a stored row with `X = "foo"` leaves `X` NULL — the
claim "after the upsert X still equals \"foo\"" is false for the
migration script's Bulk Upsert Executor. -/
theorem c1_counterexample :
    insert_companies_batch false c1Sink [c1Inc] = .ok (applyRows c1Sink [c1Inc]) ∧
    ((applyRows c1Sink [c1Inc]) 0).map (fun r => r.cols "X") = some Option.none ∧
    some Option.none ≠ some (some (PyVal.str "foo")) := by
  refine ⟨rfl, rfl, by simp⟩

/-- Claim C1, amended: in `migrate_companies.py` the upsert
(`ON CONFLICT (id) DO UPDATE SET col = EXCLUDED.col`) replaces every
column of an existing row with the incoming value, null or not — a null
incoming value does overwrite a populated stored value; the
null-preserving behaviour holds only for the `sql_merge` statement of
`import_active_companies.py`, whose `COALESCE(NULLIF(existing,''),
EXCLUDED.col)` / `COALESCE(existing, EXCLUDED.col)` clauses keep any
populated (non-null, non-empty for text) stored value regardless of the
incoming one — in particular a stored `X = "foo"` survives a null
incoming `X` there. -/
theorem c1_amended :
    (∀ (s : PgSink) (r : PgRow),
        (upsertRow s r) r.id = some r ∧ ∀ i, i ≠ r.id → (upsertRow s r) i = s i) ∧
    (∀ (e i : ActiveRow) (v : String), e.name = some v → v ≠ "" →
        (sql_merge_update e i).name = some v) ∧
    (∀ (e i : ActiveRow) (n : ℤ), e.capital_stock = some n →
        (sql_merge_update e i).capital_stock = some n) := by
  refine ⟨fun s r => ⟨?_, fun i hi => ?_⟩, fun e i v hv hne => ?_, fun e i n hn => ?_⟩
  · simp [upsertRow]
  · simp [upsertRow, hi]
  · simp [sql_merge_update, mergeText, nullifEmpty, hv, hne]
  · simp [sql_merge_update, mergeNum, hn]

theorem c1_amended_witness :
    (upsertRow c1Sink c1Inc) c1Inc.id = some c1Inc ∧
    (sql_merge_update c1ActiveStored c1ActiveInc).name = some "foo" ∧
    (sql_merge_update c1ActiveStored c1ActiveInc).capital_stock = some 31 := by
  refine ⟨(c1_amended.1 c1Sink c1Inc).1, ?_, ?_⟩
  · exact c1_amended.2.1 c1ActiveStored c1ActiveInc "foo" rfl (by decide)
  · exact c1_amended.2.2 c1ActiveStored c1ActiveInc 31 rfl

/-! ## Claim C3 -/

/-- Claim C3: running the pipeline twice over an unchanged source leaves
the sink in exactly the same state as running it once.  For the
migration, the batches produced from an unchanged source are the same in
both runs, and applying them a second time is the identity on the
resulting sink (the upsert keyed by id is last-writer-wins, so the second
pass rewrites every row to the value it already has).  For the backfill,
a second pass recomputes the same `hasAnyWebPresence` (the computation
ignores the field itself), finds it equal and skips every document.
Re-processing therefore makes no change — in particular it never
regresses any column of an already-applied record. -/
theorem c3_idempotent :
    (∀ (s : PgSink) (bs : List (List PgRow)),
        applyBatches (applyBatches s bs) bs = applyBatches s bs) ∧
    (∀ c : ℕ → Option DataMap, runBackfill (runBackfill c) = runBackfill c) :=
  ⟨fetch_join_idem, runBackfill_idem⟩

/-! ## Worker accounting lemmas (for C2 and C5) -/

theorem pb_us_fold (cf : ℕ → Bool) (docs : List (ℕ × DataMap)) : ∀ st : PBState,
    (docs.foldl (pbStep cf) st).updated + (docs.foldl (pbStep cf) st).skipped
      = st.updated + st.skipped + docs.length := by
  induction docs with
  | nil => intro st; simp
  | cons doc t ih =>
    intro st
    have hstep : (pbStep cf st doc).updated + (pbStep cf st doc).skipped
        = st.updated + st.skipped + 1 := by
      by_cases h1 : isSkip doc.2 <;> by_cases h2 : max_batch_size ≤ st.batch_count + 1 <;>
        by_cases h3 : cf st.commits = true <;> simp [pbStep, h1, h2, h3] <;> omega
    have h := ih (pbStep cf st doc)
    simp only [List.foldl_cons, List.length_cons]
    omega

theorem pb_errors_nofail (docs : List (ℕ × DataMap)) : ∀ st : PBState,
    (docs.foldl (pbStep (fun _ => false)) st).errors = st.errors := by
  induction docs with
  | nil => intro st; simp
  | cons doc t ih =>
    intro st
    have hstep : (pbStep (fun _ => false) st doc).errors = st.errors := by
      by_cases h1 : isSkip doc.2 <;> by_cases h2 : max_batch_size ≤ st.batch_count + 1 <;>
        simp [pbStep, h1, h2]
    have h := ih (pbStep (fun _ => false) st doc)
    simp only [List.foldl_cons]
    omega

theorem process_batch_ok_us (cf : ℕ → Bool) (docs : List (ℕ × DataMap))
    (out : ℕ × ℕ × ℕ) (h : process_batch cf docs = .ok out) :
    out.1 + out.2.1 = docs.length := by
  have hus := pb_us_fold cf docs ⟨0, 0, 0, 0, 0⟩
  unfold process_batch at h
  by_cases hbc : 0 < (docs.foldl (pbStep cf) ⟨0, 0, 0, 0, 0⟩).batch_count
  · rw [if_pos hbc] at h
    by_cases hcf : cf (docs.foldl (pbStep cf) ⟨0, 0, 0, 0, 0⟩).commits = true
    · rw [if_pos hcf] at h
      cases h
    · rw [if_neg hcf] at h
      cases h
      simpa using hus
  · rw [if_neg hbc] at h
    cases h
    simpa using hus

theorem pbwr_dichotomy (oracle : ℕ → (ℕ → Bool) × Bool) (docs : List (ℕ × DataMap)) :
    ∀ (rem attempt : ℕ) (waits : List ℕ),
      ((pbwrGo oracle docs rem attempt waits).1).1 +
          ((pbwrGo oracle docs rem attempt waits).1).2.1 = docs.length
        ∨ (pbwrGo oracle docs rem attempt waits).1 = (0, 0, docs.length) := by
  intro rem
  induction rem with
  | zero => intro attempt waits; right; simp [pbwrGo]
  | succ rem ih =>
    intro attempt waits
    cases hpb : process_batch (oracle attempt).1 docs with
    | ok out =>
      have heq : pbwrGo oracle docs (rem + 1) attempt waits = (out, waits.reverse) := by
        conv_lhs => unfold pbwrGo
        rw [hpb]
      rw [heq]
      left
      simpa using process_batch_ok_us _ _ _ hpb
    | error e =>
      by_cases hr : ((oracle attempt).2 = true) ∧ attempt < max_retries - 1
      · have heq : pbwrGo oracle docs (rem + 1) attempt waits
            = pbwrGo oracle docs rem (attempt + 1) (retry_delay * 2 ^ attempt :: waits) := by
          conv_lhs => unfold pbwrGo
          rw [hpb]; rw [if_pos hr]
        rw [heq]
        exact ih (attempt + 1) _
      · have heq : pbwrGo oracle docs (rem + 1) attempt waits
            = ((0, 0, docs.length), waits.reverse) := by
          conv_lhs => unfold pbwrGo
          rw [hpb]; rw [if_neg hr]
        rw [heq]
        right
        rfl

theorem process_batch_nofail (docs : List (ℕ × DataMap)) :
    process_batch (fun _ => false) docs
        = .ok ((docs.foldl (pbStep (fun _ => false)) ⟨0, 0, 0, 0, 0⟩).updated,
               (docs.foldl (pbStep (fun _ => false)) ⟨0, 0, 0, 0, 0⟩).skipped, 0)
      ∧ (docs.foldl (pbStep (fun _ => false)) ⟨0, 0, 0, 0, 0⟩).updated
          + (docs.foldl (pbStep (fun _ => false)) ⟨0, 0, 0, 0, 0⟩).skipped
        = docs.length := by
  have herr : (docs.foldl (pbStep (fun _ => false)) ⟨0, 0, 0, 0, 0⟩).errors = 0 := by
    simpa using pb_errors_nofail docs ⟨0, 0, 0, 0, 0⟩
  have hus := pb_us_fold (fun _ => false) docs ⟨0, 0, 0, 0, 0⟩
  constructor
  · unfold process_batch
    by_cases hbc : 0 < (docs.foldl (pbStep (fun _ => false)) ⟨0, 0, 0, 0, 0⟩).batch_count
    · rw [if_pos hbc, if_neg (by simp), herr]
    · rw [if_neg hbc, herr]
  · simpa using hus

theorem pbwr_nofail (docs : List (ℕ × DataMap)) :
    ∃ u s, process_batch_with_retry noFailOracle docs = ((u, s, 0), [])
      ∧ u + s = docs.length := by
  obtain ⟨hok, hus⟩ := process_batch_nofail docs
  refine ⟨_, _, ?_, hus⟩
  have hok' : process_batch (noFailOracle 0).1 docs
      = .ok ((docs.foldl (pbStep (fun _ => false)) ⟨0, 0, 0, 0, 0⟩).updated,
             (docs.foldl (pbStep (fun _ => false)) ⟨0, 0, 0, 0, 0⟩).skipped, 0) := hok
  unfold process_batch_with_retry max_retries
  conv_lhs => unfold pbwrGo
  rw [hok']
  rfl

theorem totals_nofail (batches : List (List (ℕ × DataMap))) :
    ∀ acc : ℕ × ℕ × ℕ,
      ((worker_outcomes (batches.map (fun b => (b, noFailOracle)))).foldl
          outcome_add acc).1 +
        ((worker_outcomes (batches.map (fun b => (b, noFailOracle)))).foldl
          outcome_add acc).2.1 =
        acc.1 + acc.2.1 + (batches.map List.length).sum ∧
      ((worker_outcomes (batches.map (fun b => (b, noFailOracle)))).foldl
          outcome_add acc).2.2 = acc.2.2 := by
  induction batches with
  | nil => intro acc; simp [worker_outcomes]
  | cons b t ih =>
    intro acc
    obtain ⟨u, s, hret, hus⟩ := pbwr_nofail b
    have hcons : worker_outcomes ((b :: t).map (fun x => (x, noFailOracle)))
        = (process_batch_with_retry noFailOracle b).1
            :: worker_outcomes (t.map (fun x => (x, noFailOracle))) := rfl
    rw [hcons, hret]
    have hfst : (((u, s, 0), ([] : List ℕ)).1 : ℕ × ℕ × ℕ) = (u, s, 0) := rfl
    rw [hfst]
    simp only [List.foldl_cons, List.map_cons, List.sum_cons]
    have hi := ih (outcome_add acc (u, s, 0))
    simp only [outcome_add] at hi ⊢
    omega

theorem pb_fold_nonskip (cf : ℕ → Bool) :
    ∀ (docs : List (ℕ × DataMap)) (st : PBState),
      (∀ d ∈ docs, isSkip d.2 = false) →
      st.batch_count + docs.length < max_batch_size →
        docs.foldl (pbStep cf) st
          = ⟨st.updated + docs.length, st.skipped, st.errors,
             st.batch_count + docs.length, st.commits⟩ := by
  intro docs
  induction docs with
  | nil => intro st _ _; simp
  | cons d t ih =>
    intro st hns hlen
    have hlen' : st.batch_count + (t.length + 1) < max_batch_size := by
      simpa using hlen
    have hd : isSkip d.2 = false := hns d (List.mem_cons_self d t)
    have h2 : ¬ (max_batch_size ≤ st.batch_count + 1) := by omega
    have hstep : pbStep cf st d
        = ⟨st.updated + 1, st.skipped, st.errors, st.batch_count + 1, st.commits⟩ := by
      simp [pbStep, hd, h2]
    have hrest := ih ⟨st.updated + 1, st.skipped, st.errors, st.batch_count + 1, st.commits⟩
      (fun x hx => hns x (List.mem_cons_of_mem d hx))
      (by show st.batch_count + 1 + t.length < max_batch_size; omega)
    rw [List.foldl_cons, hstep, hrest]
    have e1 : st.updated + 1 + t.length = st.updated + (d :: t).length := by
      rw [show (d :: t).length = t.length + 1 from rfl]
      omega
    have e2 : st.batch_count + 1 + t.length = st.batch_count + (d :: t).length := by
      rw [show (d :: t).length = t.length + 1 from rfl]
      omega
    rw [e1, e2]

/-- The mid-loop commit double-count: 500 to-update documents, the first
(in-loop) `batch.commit()` call fails and is caught by the per-document
`except`, the trailing commit succeeds — `process_batch` returns normally
with `(updated, skipped, errors) = (500, 0, 1)`, whose sum 501 exceeds
the 500 documents processed. -/
theorem pb_midcommit_demo :
    process_batch (fun c => decide (c = 0)) ((List.range 500).map failDoc)
      = .ok (500, 0, 1) := by
  have hns : ∀ d ∈ (List.range 499).map failDoc, isSkip d.2 = false := by
    intro d hd
    obtain ⟨i, _, rfl⟩ := List.mem_map.mp hd
    rfl
  have h1 : ((List.range 499).map failDoc).foldl
        (pbStep (fun c => decide (c = 0))) ⟨0, 0, 0, 0, 0⟩
      = ⟨499, 0, 0, 499, 0⟩ := by
    have h := pb_fold_nonskip (fun c => decide (c = 0)) ((List.range 499).map failDoc)
      ⟨0, 0, 0, 0, 0⟩ hns (by simp [max_batch_size])
    rw [h]
    simp
  have hsplit : (List.range 500).map failDoc
      = (List.range 499).map failDoc ++ [failDoc 499] := by
    rw [List.range_succ, List.map_append]
    rfl
  have hd : isSkip (failDoc 499).2 = false := rfl
  have hge : max_batch_size ≤ (499 : ℕ) + 1 := by simp [max_batch_size]
  have hstep : pbStep (fun c => decide (c = 0)) ⟨499, 0, 0, 499, 0⟩ (failDoc 499)
      = ⟨500, 0, 1, 500, 1⟩ := by
    simp [pbStep, hd, hge]
  have h2 : ((List.range 500).map failDoc).foldl
        (pbStep (fun c => decide (c = 0))) ⟨0, 0, 0, 0, 0⟩
      = ⟨500, 0, 1, 500, 1⟩ := by
    rw [hsplit, List.foldl_append, h1]
    simp only [List.foldl_cons, List.foldl_nil]
    exact hstep
  unfold process_batch
  rw [h2]
  rfl

/-! ## Claim C2 -/

/-- Claim C2, amended: the worker loop reports three counters — updated,
skipped and errors — not two.  Every work-item outcome reported by
`process_batch_with_retry` satisfies `updated + skipped = N` (each of
the item's N records is counted exactly once as updated or as skipped),
*except* a wholesale failure — the trailing commit raising non-retryably
or through every retry — which reports `(0, 0, N)`: all N records
counted as errors, none applied or skipped.  The `errors` counter does
not extend this to a three-way partition: an in-loop `batch.commit()`
failure caught by the per-document `except` adds `errors += 1` for a
document that was already counted in `updated`, so a normally returning
batch can report `updated + skipped + errors > N` — a 500-document batch
whose first commit call fails and whose trailing commit succeeds reports
`(500, 0, 1)`, sum 501.  In a run in which every Firestore commit
succeeds, the grand totals satisfy `updated + skipped = N` with
`errors = 0`. -/
theorem c2_accounting :
    (∀ (oracle : ℕ → (ℕ → Bool) × Bool) (docs : List (ℕ × DataMap)),
        ((process_batch_with_retry oracle docs).1).1
            + ((process_batch_with_retry oracle docs).1).2.1 = docs.length
          ∨ (process_batch_with_retry oracle docs).1 = (0, 0, docs.length)) ∧
    (∀ batches : List (List (ℕ × DataMap)),
        (process_collection_totals (batches.map (fun b => (b, noFailOracle)))).1
            + (process_collection_totals (batches.map (fun b => (b, noFailOracle)))).2.1
          = (batches.map List.length).sum
        ∧ (process_collection_totals (batches.map (fun b => (b, noFailOracle)))).2.2
            = 0) ∧
    process_batch (fun c => decide (c = 0)) ((List.range 500).map failDoc)
      = .ok (500, 0, 1) := by
  refine ⟨?_, ?_, ?_⟩
  · intro oracle docs
    exact pbwr_dichotomy oracle docs max_retries 0 []
  · intro batches
    have h := totals_nofail batches (0, 0, 0)
    unfold process_collection_totals
    exact ⟨by simpa using h.1, by simpa using h.2⟩
  · exact pb_midcommit_demo

/-- Claim C2 counterexample: a run with one work item of one record whose
trailing batch commit fails non-retryably reports `updated = 0,
skipped = 0, errors = 1`; the claimed invariant `applied + skipped = N`
fails (`0 ≠ 1`). -/
theorem c2_counterexample :
    (process_collection_totals [([failDoc 0], fun _ => (fun _ => true, false))]).1 +
      (process_collection_totals
        [([failDoc 0], fun _ => (fun _ => true, false))]).2.1 = 0 ∧
    (process_collection_totals
        [([failDoc 0], fun _ => (fun _ => true, false))]).2.2 = 1 ∧
    [failDoc 0].length = 1 ∧ (0 : ℕ) ≠ 1 := by
  decide

/-! ## Claim C5 -/

/-- Claim C5, amended: in the backfill, a work item whose upsert raises a
non-retryable execution error yields the outcome
`(updated 0, skipped 0, errors = batch size)` — the rows are counted as
*errors*, not as skipped — and the worker continues: every later work
item is processed exactly as if the failure had not happened.  In the
migration variant, by contrast, `insert_companies_batch` rolls the
transaction back and re-raises, so there a single batch failure aborts
the whole run. -/
theorem c5_batch_failure :
    (∀ docs : List (ℕ × DataMap), process_batch (fun _ => true) docs = .error () →
        process_batch_with_retry (fun _ => (fun _ => true, false)) docs
          = ((0, 0, docs.length), [])) ∧
    (∀ (b : List (ℕ × DataMap)) (o : ℕ → (ℕ → Bool) × Bool)
        (rest : List (List (ℕ × DataMap) × (ℕ → (ℕ → Bool) × Bool))),
        worker_outcomes ((b, o) :: rest)
          = (process_batch_with_retry o b).1 :: worker_outcomes rest) ∧
    (∀ (s : PgSink) (rs : List PgRow), insert_companies_batch true s rs = .error ()) ∧
    (∀ (src : List SDoc) (P : ℕ) (s0 : PgSink), src ≠ [] → 0 < P →
        migrate_companies src P s0 .absent (fun _ => true)
          = .failed s0 (.saved (lastIdOf (src.take P))) []) := by
  refine ⟨?_, ?_, ?_, ?_⟩
  · intro docs h
    unfold process_batch_with_retry max_retries pbwrGo
    rw [h]
    simp
  · intro b o rest; rfl
  · intro s rs; rfl
  · intro src P s0 hne hP
    unfold migrate_companies
    show migrateGo src P _ (src.length + 1) Option.none s0 .absent [] 0 = _
    unfold migrateGo
    have hpage : fetchAfter src Option.none P = src.take P := rfl
    rw [hpage]
    rw [if_neg (by simp [List.isEmpty_iff, List.take_eq_nil_iff, hne]; omega)]
    rfl

/-- Claim C5 counterexample: a two-row work item whose upsert raises a
non-retryable constraint violation reports the outcome `(0, 0, 2)`; the
claim predicts `skipped = batchSize = 2`, but the code reports
`skipped = 0` (the rows are counted as errors). -/
theorem c5_counterexample :
    (process_batch_with_retry (fun _ => (fun _ => true, false))
        [failDoc 0, failDoc 1]).1 = (0, 0, 2) ∧
    ((process_batch_with_retry (fun _ => (fun _ => true, false))
        [failDoc 0, failDoc 1]).1).2.1 ≠ 2 := by
  decide

theorem c5_witness :
    process_batch_with_retry (fun _ => (fun _ => true, false)) [failDoc 0]
      = ((0, 0, 1), []) ∧
    migrate_companies [⟨5, []⟩] 2 (fun _ => Option.none) .absent (fun _ => true)
      = .failed (fun _ => Option.none) (.saved (lastIdOf ([(⟨5, []⟩ : SDoc)].take 2))) [] := by
  constructor
  · exact c5_batch_failure.1 [failDoc 0] (by decide)
  · exact c5_batch_failure.2.2.2 [⟨5, []⟩] 2 (fun _ => Option.none) (by simp) (by decide)

/-! ## Claim C8 -/

/-- Claim C8, amended: the Producer-side fetch in `collect_batches` is
retried on retryable conditions up to `max_retries = 5` extra attempts,
after which (or on any non-retryable error) the exception propagates and
aborts the run; but the backoff delays are *linear* — `5 * retry_count`
seconds, i.e. 5, 10, 15, 20, 25 — not exponential (the in-code comment
calls this 指数バックオフ while enumerating the linear schedule).
Exponential backoff (`RETRY_DELAY * 2^attempt`) is used only by the
worker-side `process_batch_with_retry`. -/
theorem c8_fetch_retry :
    (collect_fetch_with_retry (fun _ => .exn true) = .error [5, 10, 15, 20, 25]) ∧
    (∀ k, k ≤ collect_max_retries →
        collect_fetch_with_retry (fun t => if t < k then .exn true else .ok)
          = .ok (k, (List.range k).map (fun i => 5 * (i + 1)))) ∧
    (collect_fetch_with_retry (fun _ => .exn false) = .error []) ∧
    ((process_batch_with_retry (fun _ => (fun _ => true, true)) [failDoc 0]).2
      = [1, 2]) := by
  refine ⟨by decide, ?_, by decide, by decide⟩
  intro k hk
  have hk5 : k ≤ 5 := hk
  interval_cases k <;> decide

theorem c8_witness :
    collect_fetch_with_retry (fun t => if t < 2 then .exn true else .ok)
      = .ok (2, [5, 10]) := by
  have h := c8_fetch_retry.2.1 2 (by decide)
  simpa using h

/-- Claim C8 counterexample: with every fetch failing retryably, the
performed backoff delays are `[5, 10, 15, 20, 25]`, which is not the
exponential schedule `5 * 2^attempt` the claim describes (it differs
already at the third delay: 15 ≠ 20). -/
theorem c8_counterexample :
    collect_fetch_with_retry (fun _ => .exn true) = .error [5, 10, 15, 20, 25] ∧
    ¬ (∀ i : Fin 5, [5, 10, 15, 20, 25].get i = 5 * 2 ^ (i : ℕ)) := by
  constructor
  · decide
  · decide

/-! ## Pagination lemmas (for C4, C9, C10) -/

theorem fetchAfter_eq (src : List SDoc) (cursor : Option ℕ) (P : ℕ) :
    fetchAfter src cursor P = (filterAfter src cursor).take P := by
  cases cursor <;> rfl

theorem le_lastIdOf {l : List SDoc} (hs : l.Pairwise idLt) {d : SDoc} (hd : d ∈ l) :
    d.id ≤ lastIdOf l := by
  induction l with
  | nil => cases hd
  | cons a t ih =>
    have hrel := (List.pairwise_cons.mp hs).1
    have hst := (List.pairwise_cons.mp hs).2
    cases t with
    | nil =>
      rcases List.mem_cons.mp hd with rfl | h
      · exact Nat.le_refl _
      · cases h
    | cons b t' =>
      have hlast : lastIdOf (a :: b :: t') = lastIdOf (b :: t') := by
        simp [lastIdOf, List.getLast?_cons_cons]
      rw [hlast]
      rcases List.mem_cons.mp hd with rfl | h
      · obtain ⟨dl, hdl⟩ : ∃ dl, (b :: t').getLast? = some dl :=
          ⟨(b :: t').getLast (by simp), List.getLast?_eq_getLast _ (by simp)⟩
        have hmem := List.mem_of_getLast?_eq_some hdl
        have hlt : d.id < dl.id := hrel dl hmem
        simp only [lastIdOf, hdl]
        omega
      · exact ih hst h

theorem after_last_filter (pre suf : List SDoc)
    (h : (pre ++ suf).Pairwise idLt) (hpre : pre ≠ []) :
    (pre ++ suf).filter (fun d => lastIdOf pre < d.id) = suf := by
  obtain ⟨hp, _, hcross⟩ := List.pairwise_append.mp h
  rw [List.filter_append]
  have h1 : pre.filter (fun d => lastIdOf pre < d.id) = [] := by
    rw [List.filter_eq_nil_iff]
    intro a ha
    simp only [decide_eq_true_eq]
    have := le_lastIdOf hp ha
    omega
  have h2 : suf.filter (fun d => lastIdOf pre < d.id) = suf := by
    rw [List.filter_eq_self]
    intro a ha
    simp only [decide_eq_true_eq]
    obtain ⟨dl, hdl⟩ : ∃ dl, pre.getLast? = some dl :=
      ⟨pre.getLast hpre, List.getLast?_eq_getLast _ hpre⟩
    have hmem := List.mem_of_getLast?_eq_some hdl
    have heq : lastIdOf pre = dl.id := by simp [lastIdOf, hdl]
    rw [heq]
    exact hcross dl hmem a ha
  rw [h1, h2]
  rfl

theorem filterAfter_pairwise {src : List SDoc} (hs : src.Pairwise idLt)
    (cursor : Option ℕ) : (filterAfter src cursor).Pairwise idLt := by
  cases cursor with
  | none => exact hs
  | some c => exact hs.filter _

theorem filterAfter_step {src : List SDoc} (hs : src.Pairwise idLt)
    {cursor : Option ℕ} {rem : List SDoc} (hinv : filterAfter src cursor = rem)
    {P : ℕ} (hP : 0 < P) (hPle : P ≤ rem.length) :
    filterAfter src (some (lastIdOf (rem.take P))) = rem.drop P := by
  have hrem : rem.Pairwise idLt := hinv ▸ filterAfter_pairwise hs cursor
  have htake_ne : rem.take P ≠ [] := by
    rw [Ne, List.take_eq_nil_iff]
    rintro (h0 | h0)
    · omega
    · subst h0; simp at hPle; omega
  have hkey : rem.filter (fun d => lastIdOf (rem.take P) < d.id) = rem.drop P := by
    have h := after_last_filter (rem.take P) (rem.drop P)
      (by rw [List.take_append_drop]; exact hrem) htake_ne
    rw [List.take_append_drop] at h
    exact h
  cases cursor with
  | none =>
    simp only [filterAfter] at hinv ⊢
    rw [hinv, hkey]
  | some c0 =>
    simp only [filterAfter] at hinv ⊢
    obtain ⟨dl, hdl⟩ : ∃ dl, (rem.take P).getLast? = some dl :=
      ⟨(rem.take P).getLast htake_ne, List.getLast?_eq_getLast _ htake_ne⟩
    have hdl_mem : dl ∈ rem := List.take_subset P rem (List.mem_of_getLast?_eq_some hdl)
    have hdl_c0 : c0 < dl.id := by
      have hf : dl ∈ src.filter (fun d => c0 < d.id) := hinv ▸ hdl_mem
      simpa using List.of_mem_filter hf
    have hc'eq : lastIdOf (rem.take P) = dl.id := by simp [lastIdOf, hdl]
    have hcomm : src.filter (fun d => lastIdOf (rem.take P) < d.id)
        = (src.filter (fun d => c0 < d.id)).filter
            (fun d => lastIdOf (rem.take P) < d.id) := by
      rw [List.filter_filter]
      apply List.filter_congr
      intro a _
      by_cases hca : lastIdOf (rem.take P) < a.id
      · have : c0 < a.id := by rw [hc'eq] at hca; omega
        simp [hca, this]
      · simp [hca]
    rw [hcomm, hinv, hkey]

theorem collectGo_spec {src : List SDoc} (hs : src.Pairwise idLt) {P W : ℕ} (hP : 0 < P) :
    ∀ (fuel : ℕ) (cursor : Option ℕ) (rem : List SDoc)
      (st : List (List SDoc) × List SDoc),
      filterAfter src cursor = rem → rem.length < fuel →
      collectGo src P W fuel cursor st = closeBatches (rem.foldl (pushDoc W) st) := by
  intro fuel
  induction fuel with
  | zero => intro cursor rem st hinv hlen; omega
  | succ fuel ih =>
    intro cursor rem st hinv hlen
    have hpage : fetchAfter src cursor P = rem.take P := by rw [fetchAfter_eq, hinv]
    by_cases hrem : rem = []
    · subst hrem
      have hnil : fetchAfter src cursor P = [] := by rw [hpage]; simp
      conv_lhs => unfold collectGo
      rw [hnil]
      simp
    · have hBne : rem.take P ≠ [] := by
        rw [Ne, List.take_eq_nil_iff]
        rintro (h0 | h0)
        · omega
        · exact hrem h0
      conv_lhs => unfold collectGo
      rw [hpage]
      rw [if_neg (by simpa using hBne)]
      by_cases hshort : (rem.take P).length < P
      · have hlenlt : rem.length < P := by
          rw [List.length_take] at hshort; omega
        have htake : rem.take P = rem := List.take_of_length_le (by omega)
        rw [if_pos hshort, htake]
      · have hPle : P ≤ rem.length := by
          rw [List.length_take] at hshort; omega
        rw [if_neg hshort]
        rw [ih (some (lastIdOf (rem.take P))) (rem.drop P)
          ((rem.take P).foldl (pushDoc W) st) (filterAfter_step hs hinv hP hPle)
          (by rw [List.length_drop]; omega)]
        conv_rhs => rw [← List.take_append_drop P rem, List.foldl_append]

theorem collect_batches_eq (src : List SDoc) (hs : src.Pairwise idLt)
    (P W : ℕ) (hP : 0 < P) :
    collect_batches src P W = closeBatches (src.foldl (pushDoc W) ([], [])) := by
  unfold collect_batches
  exact collectGo_spec hs hP (src.length + 1) Option.none src ([], []) rfl (by omega)

theorem pushDoc_fold_inv (W : ℕ) (hW : 0 < W) (docs : List SDoc) :
    ∀ (acc : List (List SDoc)) (cur : List SDoc),
      (∀ b ∈ acc, b.length = W) → cur.length < W →
      (∀ b ∈ (docs.foldl (pushDoc W) (acc, cur)).1, b.length = W) ∧
      (docs.foldl (pushDoc W) (acc, cur)).2.length < W ∧
      ((docs.foldl (pushDoc W) (acc, cur)).1).flatten ++ (docs.foldl (pushDoc W) (acc, cur)).2
        = acc.flatten ++ cur ++ docs := by
  induction docs with
  | nil =>
    intro acc cur hacc hcur
    simpa using ⟨hacc, hcur⟩
  | cons d t ih =>
    intro acc cur hacc hcur
    simp only [List.foldl_cons]
    by_cases hfull : W ≤ (cur ++ [d]).length
    · have hfull' : W ≤ cur.length + 1 := by simpa using hfull
      have hstep : pushDoc W (acc, cur) d = (acc ++ [cur ++ [d]], []) := by
        simp [pushDoc, hfull']
      rw [hstep]
      have hlen : (cur ++ [d]).length = W := by
        simp only [List.length_append, List.length_cons, List.length_nil] at hfull ⊢
        omega
      have hres := ih (acc ++ [cur ++ [d]]) []
        (by
          intro b hb
          rcases List.mem_append.mp hb with h | h
          · exact hacc b h
          · simp only [List.mem_singleton] at h
            rw [h, hlen])
        (by simpa using hW)
      refine ⟨hres.1, hres.2.1, ?_⟩
      rw [hres.2.2]
      simp [List.flatten_append]
    · have hfull' : ¬ W ≤ cur.length + 1 := by simpa using hfull
      have hstep : pushDoc W (acc, cur) d = (acc, cur ++ [d]) := by
        simp [pushDoc, hfull']
      rw [hstep]
      have hres := ih acc (cur ++ [d]) hacc
        (by
          simp only [List.length_append, List.length_cons, List.length_nil] at hfull ⊢
          omega)
      refine ⟨hres.1, hres.2.1, ?_⟩
      rw [hres.2.2]
      simp

theorem sum_map_const_of_mem {α : Type} (W : ℕ) (f : α → ℕ) :
    ∀ L : List α, (∀ b ∈ L, f b = W) → (L.map f).sum = W * L.length := by
  intro L
  induction L with
  | nil => intro _; simp
  | cons b t ih =>
    intro h
    simp only [List.map_cons, List.sum_cons, List.length_cons]
    rw [h b (by simp), ih (fun x hx => h x (by simp [hx]))]
    ring

theorem ceil_div_exact {W k : ℕ} (hW : 0 < W) : (W * k + W - 1) / W = k := by
  have h1 : W * k + W - 1 = (W - 1) + W * k := by omega
  rw [h1, Nat.add_mul_div_left _ _ hW, Nat.div_eq_of_lt (by omega)]
  omega

theorem ceil_div_rem {W k r : ℕ} (hW : 0 < W) (hr0 : 0 < r) (hrW : r < W) :
    (W * k + r + W - 1) / W = k + 1 := by
  have hmul : W * (k + 1) = W * k + W := by ring
  have h1 : W * k + r + W - 1 = (r - 1) + W * (k + 1) := by omega
  rw [h1, Nat.add_mul_div_left _ _ hW, Nat.div_eq_of_lt (by omega)]
  omega

/-- Master characterization of `collect_batches` over a sorted source:
the work items concatenate back to the source in order, every item except
possibly the last has exactly `W` records, every item is nonempty with at
most `W` records, and there are exactly `⌈N/W⌉` of them. -/
theorem collect_batches_spec (src : List SDoc) (hs : src.Pairwise idLt)
    (P W : ℕ) (hP : 0 < P) (hW : 0 < W) :
    (collect_batches src P W).flatten = src ∧
    (∀ b ∈ (collect_batches src P W).dropLast, b.length = W) ∧
    (∀ b ∈ collect_batches src P W, b ≠ [] ∧ b.length ≤ W) ∧
    (collect_batches src P W).length = (src.length + W - 1) / W := by
  rw [collect_batches_eq src hs P W hP]
  obtain ⟨hacc, hcur, hflat⟩ := pushDoc_fold_inv W hW src [] [] (by simp) (by simpa using hW)
  set st := src.foldl (pushDoc W) ([], []) with hst
  simp only [List.flatten_nil, List.nil_append] at hflat
  have hlen1 : (st.1.flatten).length = W * st.1.length := by
    rw [List.length_flatten]
    exact sum_map_const_of_mem W _ st.1 hacc
  by_cases h2 : st.2.isEmpty
  · have h2' : st.2 = [] := by simpa using h2
    have hclose : closeBatches st = st.1 := by simp [closeBatches, h2]
    rw [hclose]
    have hsrc : st.1.flatten = src := by rw [← hflat, h2']; simp
    refine ⟨hsrc, ?_, ?_, ?_⟩
    · intro b hb
      exact hacc b (List.dropLast_sublist st.1 |>.subset hb)
    · intro b hb
      refine ⟨?_, by rw [hacc b hb]⟩
      intro hnil
      have := hacc b hb
      rw [hnil] at this
      simp at this
      omega
    · have hN : src.length = W * st.1.length := by rw [← hsrc, hlen1]
      rw [hN]
      exact (ceil_div_exact hW).symm
  · have h2' : st.2 ≠ [] := by simpa using h2
    have hclose : closeBatches st = st.1 ++ [st.2] := by simp [closeBatches, h2]
    rw [hclose]
    have hsrc : st.1.flatten ++ st.2 = src := hflat
    refine ⟨?_, ?_, ?_, ?_⟩
    · simp [List.flatten_append, hsrc]
    · intro b hb
      rw [List.dropLast_concat] at hb
      exact hacc b hb
    · intro b hb
      rcases List.mem_append.mp hb with h | h
      · refine ⟨?_, by rw [hacc b h]⟩
        intro hnil
        have := hacc b h
        rw [hnil] at this
        simp at this
        omega
      · simp only [List.mem_singleton] at h
        subst h
        exact ⟨h2', by omega⟩
    · have hr0 : 0 < st.2.length := List.length_pos.mpr h2'
      have hN : src.length = W * st.1.length + st.2.length := by
        rw [← hsrc]
        simp [hlen1]
      rw [hN]
      simp only [List.length_append, List.length_singleton]
      exact (ceil_div_rem hW hr0 hcur).symm

theorem mkSrc_sorted (n : ℕ) : (mkSrc n).Pairwise idLt := by
  unfold mkSrc
  rw [List.pairwise_map]
  exact List.pairwise_lt_range n

theorem mkSrc_length (n : ℕ) : (mkSrc n).length = n := by
  simp [mkSrc]

/-! ## Claim C4 -/

/-- Claim C4: over a cursor-sorted source the Producer's
fetch-and-regroup loop (`collect_batches`, covering both the backfill's
fetch size 500 and the migration's page size 1000 through the parameter
`P`) groups the fetched records in order into work items of exactly `W`
records each except possibly a final partial one, consuming the whole
source (it stops after the first short page), and emits exactly
`⌈N/W⌉` items; for `N = 2500`, `P = 1000`, `W = 500` that is 5 items
(see the witness). -/
theorem c4_producer_batches :
    ∀ (src : List SDoc) (P W : ℕ), src.Pairwise idLt → 0 < P → 0 < W →
      (collect_batches src P W).flatten = src ∧
      (∀ b ∈ (collect_batches src P W).dropLast, b.length = W) ∧
      (∀ b ∈ collect_batches src P W, b ≠ [] ∧ b.length ≤ W) ∧
      (collect_batches src P W).length = (src.length + W - 1) / W :=
  fun src P W hs hP hW => collect_batches_spec src hs P W hP hW

theorem c4_witness :
    (collect_batches (mkSrc 2500) 1000 500).length = 5 ∧
    (collect_batches (mkSrc 2500) 1000 500).flatten = mkSrc 2500 := by
  have h := c4_producer_batches (mkSrc 2500) 1000 500 (mkSrc_sorted 2500)
    (by omega) (by omega)
  refine ⟨?_, h.1⟩
  rw [h.2.2.2, mkSrc_length]

/-! ## Claim C9 -/

/-- Claim C9 counterexample: there is no bounded channel between
extraction and processing — `collect_batches` returns only after the
whole source has been fetched, so at the instant processing starts the
"buffer" holds every work item of the entire source: for a 2,500-record
source all 5 items (their concatenation is the whole source), for a
5,000-record source all 10.  No `queueMaxSize` exists in the code, and no
fixed capacity bounds this buffer. -/
theorem c9_counterexample :
    (collect_batches (mkSrc 2500) 500 500).flatten = mkSrc 2500 ∧
    (collect_batches (mkSrc 2500) 500 500).length = 5 ∧
    (collect_batches (mkSrc 5000) 500 500).length = 10 := by
  have h1 := collect_batches_spec (mkSrc 2500) (mkSrc_sorted 2500) 500 500
    (by omega) (by omega)
  have h2 := collect_batches_spec (mkSrc 5000) (mkSrc_sorted 5000) 500 500
    (by omega) (by omega)
  refine ⟨h1.1, ?_, ?_⟩
  · rw [h1.2.2.2, mkSrc_length]
  · rw [h2.2.2.2, mkSrc_length]

/-- Claim C9, amended: the backfill has no backpressure mechanism:
extraction materializes the entire source in memory before processing
begins — `collect_batches` buffers all `⌈N/W⌉` work items (jointly
containing every source record) and only then are workers started, so
the number of buffered items equals the total item count and grows
linearly with the source instead of being bounded by a queue capacity. -/
theorem c9_no_backpressure :
    ∀ (src : List SDoc) (P W : ℕ), src.Pairwise idLt → 0 < P → 0 < W →
      (collect_batches src P W).flatten = src ∧
      (collect_batches src P W).length = (src.length + W - 1) / W :=
  fun src P W hs hP hW =>
    ⟨(collect_batches_spec src hs P W hP hW).1,
     (collect_batches_spec src hs P W hP hW).2.2.2⟩

theorem c9_witness :
    (collect_batches (mkSrc 1500) 500 500).flatten = mkSrc 1500 ∧
    (collect_batches (mkSrc 1500) 500 500).length = 3 := by
  have h := c9_no_backpressure (mkSrc 1500) 500 500 (mkSrc_sorted 1500)
    (by omega) (by omega)
  refine ⟨h.1, ?_⟩
  rw [h.2, mkSrc_length]

/-! ## Claim C10 -/

theorem chunkExact_nil {α : Type} (W : ℕ) : chunkExact W ([] : List α) = [] := by
  unfold chunkExact
  rfl

theorem chunkExact_cons {α : Type} {W : ℕ} (hW : 0 < W) {l : List α} (hl : l ≠ []) :
    chunkExact W l = l.take W :: chunkExact W (l.drop W) := by
  cases l with
  | nil => exact absurd rfl hl
  | cons c rest =>
    cases W with
    | zero => omega
    | succ W => rw [chunkExact]

theorem migrateGo_eq_spec {src : List SDoc} (hs : src.Pairwise idLt) {P : ℕ}
    (hP : 0 < P) (faults : ℕ → Bool) :
    ∀ (fuel : ℕ) (cursor : Option ℕ) (rem : List SDoc) (sink : PgSink)
      (file : ResumeFile) (trace : List PageLog) (ix : ℕ),
      filterAfter src cursor = rem → rem.length < fuel →
      migrateGo src P faults fuel cursor sink file trace ix
        = migrateSpec (chunkExact P rem) faults sink trace ix := by
  intro fuel
  induction fuel with
  | zero => intro cursor rem sink file trace ix hinv hlen; omega
  | succ fuel ih =>
    intro cursor rem sink file trace ix hinv hlen
    have hpage : fetchAfter src cursor P = rem.take P := by rw [fetchAfter_eq, hinv]
    by_cases hrem : rem = []
    · subst hrem
      have hnil : fetchAfter src cursor P = [] := by rw [hpage]; simp
      conv_lhs => unfold migrateGo
      rw [hnil, chunkExact_nil]
      simp [migrateSpec]
    · have hBne : rem.take P ≠ [] := by
        rw [Ne, List.take_eq_nil_iff]
        rintro (h0 | h0)
        · omega
        · exact hrem h0
      conv_lhs => unfold migrateGo
      rw [hpage]
      rw [if_neg (by simpa using hBne)]
      rw [chunkExact_cons hP hrem]
      cases hf : faults ix with
      | true =>
        show MigResult.failed sink (ResumeFile.saved (lastIdOf (List.take P rem))) trace
          = migrateSpec (List.take P rem :: chunkExact P (List.drop P rem)) faults sink trace ix
        rw [migrateSpec]
        rw [if_pos hf]
      | false =>
        show (if (List.take P rem).length < P then
            MigResult.normal (applyRows sink (List.map rowOfDoc (List.take P rem)))
              ResumeFile.absent
              (trace ++ [⟨lastIdOf (List.take P rem), ResumeFile.saved (lastIdOf (List.take P rem))⟩])
          else
            migrateGo src P faults fuel (some (lastIdOf (List.take P rem)))
              (applyRows sink (List.map rowOfDoc (List.take P rem)))
              (ResumeFile.saved (lastIdOf (List.take P rem)))
              (trace ++ [⟨lastIdOf (List.take P rem), ResumeFile.saved (lastIdOf (List.take P rem))⟩])
              (ix + 1))
          = migrateSpec (List.take P rem :: chunkExact P (List.drop P rem)) faults sink trace ix
        have hrhs : migrateSpec (List.take P rem :: chunkExact P (List.drop P rem))
              faults sink trace ix
            = migrateSpec (chunkExact P (List.drop P rem)) faults
                (applyRows sink (List.map rowOfDoc (List.take P rem)))
                (trace ++ [⟨lastIdOf (List.take P rem),
                  ResumeFile.saved (lastIdOf (List.take P rem))⟩])
                (ix + 1) := by
          rw [migrateSpec]
          rw [if_neg (by simp [hf])]
        rw [hrhs]
        by_cases hshort : (rem.take P).length < P
        · have hlenlt : rem.length < P := by
            rw [List.length_take] at hshort; omega
          have hdrop : rem.drop P = [] := List.drop_eq_nil_of_le (by omega)
          rw [if_pos hshort, hdrop, chunkExact_nil]
          rw [migrateSpec]
        · have hPle : P ≤ rem.length := by
            rw [List.length_take] at hshort; omega
          rw [if_neg hshort]
          exact ih (some (lastIdOf (rem.take P))) (rem.drop P) _ _ _ _
            (filterAfter_step hs hinv hP hPle) (by rw [List.length_drop]; omega)

theorem migrateSpec_nofault :
    ∀ (pages : List (List SDoc)) (sink : PgSink) (trace : List PageLog) (ix : ℕ),
      migrateSpec pages (fun _ => false) sink trace ix
        = .normal (applyBatches sink (pages.map (List.map rowOfDoc))) .absent
            (trace ++ pages.map (fun pg => ⟨lastIdOf pg, .saved (lastIdOf pg)⟩)) := by
  intro pages
  induction pages with
  | nil => intro sink trace ix; simp [migrateSpec, applyBatches]
  | cons pg rest ih =>
    intro sink trace ix
    simp only [migrateSpec, if_false, Bool.false_eq_true]
    rw [ih]
    simp only [applyBatches, List.map_cons, List.foldl_cons, List.append_assoc,
      List.singleton_append]

theorem migrateSpec_fault :
    ∀ (pages : List (List SDoc)) (k : ℕ) (faults : ℕ → Bool) (sink : PgSink)
      (trace : List PageLog) (ix : ℕ),
      (∀ j, j < k → faults (ix + j) = false) → faults (ix + k) = true →
      k < pages.length →
      ∃ sk, migrateSpec pages faults sink trace ix
        = .failed sk (.saved (lastIdOf (pages.getD k [])))
            (trace ++ (pages.take k).map (fun pg => ⟨lastIdOf pg, .saved (lastIdOf pg)⟩)) := by
  intro pages
  induction pages with
  | nil => intro k _ _ _ _ _ _ hk; simp at hk
  | cons pg rest ih =>
    intro k faults sink trace ix hbefore hk hklen
    cases k with
    | zero =>
      refine ⟨sink, ?_⟩
      have hf : faults ix = true := by simpa using hk
      simp [migrateSpec, hf]
    | succ k =>
      have hf0 : faults ix = false := by simpa using hbefore 0 (by omega)
      simp only [migrateSpec, hf0, if_false, Bool.false_eq_true]
      obtain ⟨sk, hsk⟩ := ih k faults (applyRows sink (pg.map rowOfDoc))
        (trace ++ [⟨lastIdOf pg, .saved (lastIdOf pg)⟩]) (ix + 1)
        (fun j hj => by
          rw [show ix + 1 + j = ix + (j + 1) by omega]
          exact hbefore (j + 1) (by omega))
        (by rw [show ix + 1 + k = ix + (k + 1) by omega]; exact hk)
        (by simpa using hklen)
      refine ⟨sk, ?_⟩
      rw [hsk]
      simp [List.append_assoc]

/-- Claim C10: the migration maintains a resume point.  Over a sorted
source and a non-empty resume file holding `c0`: (startup) extraction
begins strictly after `c0` — the pages processed are exactly the
`P`-chunks of the documents with id `> c0`; (per page) the trace shows
that right after each page is inserted the resume file holds exactly the
id of that page's last record; (completion) a run with no insert fault
ends normally with the resume file deleted; (abort) if the `k`-th page's
insert raises, the run aborts as `failed` and the resume file is left
holding the last id of that (fetched but not inserted) `k`-th page —
saved, not deleted. -/
theorem c10_resume_semantics :
    ∀ (src : List SDoc) (P : ℕ) (sink0 : PgSink) (c0 : ℕ),
      src.Pairwise idLt → 0 < P →
      (migrate_companies src P sink0 (.saved c0) (fun _ => false)
        = .normal
            (applyBatches sink0
              ((chunkExact P (src.filter (fun d => c0 < d.id))).map (List.map rowOfDoc)))
            .absent
            ((chunkExact P (src.filter (fun d => c0 < d.id))).map
              (fun pg => ⟨lastIdOf pg, .saved (lastIdOf pg)⟩))) ∧
      (∀ (k : ℕ) (faults : ℕ → Bool),
          (∀ j, j < k → faults j = false) → faults k = true →
          k < (chunkExact P (src.filter (fun d => c0 < d.id))).length →
          ∃ sk, migrate_companies src P sink0 (.saved c0) faults
            = .failed sk
                (.saved (lastIdOf ((chunkExact P (src.filter (fun d => c0 < d.id))).getD k [])))
                (((chunkExact P (src.filter (fun d => c0 < d.id))).take k).map
                  (fun pg => ⟨lastIdOf pg, .saved (lastIdOf pg)⟩))) := by
  intro src P sink0 c0 hs hP
  have hbase : ∀ faults : ℕ → Bool,
      migrate_companies src P sink0 (.saved c0) faults
        = migrateSpec (chunkExact P (src.filter (fun d => c0 < d.id))) faults sink0 [] 0 := by
    intro faults
    unfold migrate_companies
    exact migrateGo_eq_spec hs hP faults (src.length + 1) (some c0) _ sink0 _ [] 0 rfl
      (by have := List.length_filter_le (fun d => decide (c0 < d.id)) src; omega)
  constructor
  · rw [hbase, migrateSpec_nofault]
    simp
  · intro k faults hb hk hklen
    obtain ⟨sk, hsk⟩ := migrateSpec_fault _ k faults sink0 [] 0
      (fun j hj => by simpa using hb j hj) (by simpa using hk) hklen
    refine ⟨sk, ?_⟩
    rw [hbase, hsk]
    simp

theorem c10_witness :
    (migrate_companies src5 2 (fun _ => Option.none) (.saved 1) (fun _ => false)
      = .normal
          (applyBatches (fun _ => Option.none)
            ((chunkExact 2 (src5.filter (fun d => 1 < d.id))).map (List.map rowOfDoc)))
          .absent
          ((chunkExact 2 (src5.filter (fun d => 1 < d.id))).map
            (fun pg => ⟨lastIdOf pg, .saved (lastIdOf pg)⟩))) ∧
    (∃ sk, migrate_companies src5 2 (fun _ => Option.none) (.saved 1)
        (fun j => decide (1 ≤ j))
      = .failed sk
          (.saved (lastIdOf ((chunkExact 2 (src5.filter (fun d => 1 < d.id))).getD 1 [])))
          (((chunkExact 2 (src5.filter (fun d => 1 < d.id))).take 1).map
            (fun pg => ⟨lastIdOf pg, .saved (lastIdOf pg)⟩))) := by
  have h := c10_resume_semantics src5 2 (fun _ => Option.none) 1 (by decide) (by omega)
  refine ⟨h.1, ?_⟩
  apply h.2 1 (fun j => decide (1 ≤ j)) ?_ (by decide) ?_
  · intro j hj
    interval_cases j
    decide
  · have hchunk : chunkExact 2 (src5.filter (fun d => 1 < d.id))
        = [[⟨2, []⟩, ⟨3, []⟩], [⟨4, []⟩, ⟨5, []⟩]] := by
      rw [show src5.filter (fun d => 1 < d.id)
          = [⟨2, []⟩, ⟨3, []⟩, ⟨4, []⟩, ⟨5, []⟩] from rfl]
      rw [chunkExact_cons (by omega) (by simp)]
      rw [show List.drop 2 ([⟨2, []⟩, ⟨3, []⟩, ⟨4, []⟩, ⟨5, []⟩] : List SDoc)
          = [⟨4, []⟩, ⟨5, []⟩] from rfl]
      rw [chunkExact_cons (by omega) (by simp)]
      rw [show List.drop 2 ([⟨4, []⟩, ⟨5, []⟩] : List SDoc) = [] from rfl]
      rw [chunkExact_nil]
      rfl
    rw [hchunk]
    simp

end RoadCo
